import Mathlib

/-!
Shallow embedding of `src/hatch/services.py` (`TwitterService.get_users_info`
and its helpers `get_user_cache_key`, `get_user_id`) from openplans/newark2.0.

Modelling choices:
* Python dicts are embedded as association lists with first-match lookup and
  in-place overwrite on assignment (`alGet` / `alSet`), iterated in list
  (insertion) order.  CPython 2.7 actually iterates dicts in hash order;
  every property proved here is insensitive to iteration order except the
  shared-uid collision in `reverse_data`, whose concrete input below is
  chosen so that CPython 2.7's hash order and this embedding's list order
  resolve the collision to the same key.
* The cache buffer (`hatch/cache.py` is not in the snapshot; the spec gives its
  interface as `get / get_many / set / set_many`) stores profile-info entries
  and social-id entries under disjoint key suffixes (`:info` / `:social-id`),
  so it is embedded as a pair of stores; every write is also logged.
* The remote API is a directory `dir : Nat → Option String` of profile
  payloads keyed by remote id, plus a predicate `apiFails` saying which lookup
  groups raise `TwitterHTTPError`.  A successful `users.lookup` on a group
  returns one profile per requested id present in the directory, carrying that
  id (Twitter returns profiles for the requested ids).
* `on_behalf_of` only selects OAuth credentials and log text, so it is omitted.
* Logging calls have no embedded effect.
-/

namespace Newark

/-- First-match lookup in an association list (Python `d[k]` / `k in d`). -/
def alGet {κ α : Type} [DecidableEq κ] (k : κ) : List (κ × α) → Option α
  | [] => none
  | (k', v) :: l => if k' = k then some v else alGet k l

/-- Python `k in d`. -/
def alHasKey {κ α : Type} [DecidableEq κ] (k : κ) (l : List (κ × α)) : Bool :=
  (alGet k l).isSome

/-- Python dict assignment `d[k] = v`: overwrite the binding `alGet` sees in
place, else append the new binding. -/
def alSet {κ α : Type} [DecidableEq κ] (k : κ) (v : α) :
    List (κ × α) → List (κ × α)
  | [] => [(k, v)]
  | (k', v') :: l => if k' = k then (k, v) :: l else (k', v') :: alSet k v l

/-- Python `d.update(m)`: assign every pair of `m` into `d` in order. -/
def alUpdate {κ α : Type} [DecidableEq κ] (l m : List (κ × α)) : List (κ × α) :=
  m.foldl (fun acc p => alSet p.1 p.2 acc) l

/-- A linked social-media account row (`user.social_auth` entries). -/
structure SocialAuth where
  provider : String
  uid : Nat
deriving DecidableEq, Repr

/-- A local user record: primary key, username, linked accounts, and the
persisted `sm_not_found` flag. -/
structure User where
  pk : Nat
  username : String
  social_auth : List SocialAuth
  sm_not_found : Bool
deriving DecidableEq, Repr

/-- A remote profile: its remote numeric id plus the remaining fields,
treated as an opaque payload. -/
structure UserInfo where
  id : Nat
  payload : String
deriving DecidableEq, Repr

/-- The cache buffer, split by the two key suffixes `get_users_info` touches:
profile-info entries (`user-<pk>:info`) and social-id entries
(`user-<pk>:social-id`). -/
structure Cache where
  infoStore : List (String × UserInfo)
  sidStore : List (String × Nat)
deriving DecidableEq, Repr

/-- One logged cache write: a single `cache.set` of a social id (with its
60-second timeout), or one batched `cache.set_many` of profile entries. -/
inductive CacheWrite where
  | setSid (key : String) (value : Nat) (ttl : Nat)
  | setManyInfo (entries : List (String × UserInfo))
deriving DecidableEq, Repr

/-- The payload of a batched `set_many` write, if the write is one. -/
def setManyEntries : CacheWrite → Option (List (String × UserInfo))
  | CacheWrite.setManyInfo es => some es
  | _ => none

/-- `get_user_cache_key` (services.py:57-61), with the one-line
`get_user_cache_key_prefix` helper inlined: `'user-<pk>:<extra>'`. -/
def get_user_cache_key (user : User) (extra : String) : String :=
  "user-" ++ toString user.pk ++ ":" ++ extra

/-- `get_user_id` (services.py:247-273): consult the social-id cache; on a
miss take the first `social_auth` row — no row raises the not-connected
`SocialMediaException`, a non-twitter provider likewise — and memoize the uid
in the cache for 60 seconds.  Returns the id, the updated cache, and the log
of cache writes performed. -/
def get_user_id (cache : Cache) (user : User) :
    Except String (Nat × Cache × List CacheWrite) :=
  let cache_key := get_user_cache_key user "social-id"
  match alGet cache_key cache.sidStore with
  | some social_id => .ok (social_id, cache, [])
  | none =>
    match user.social_auth with
    | [] =>
      .error ("User " ++ user.username ++
        " is not authenticated with a social media account")
    | social_auth :: _ =>
      if social_auth.provider = "twitter" then
        .ok (social_auth.uid,
          { cache with
              sidStore := alSet cache_key social_auth.uid cache.sidStore },
          [CacheWrite.setSid cache_key social_auth.uid 60])
      else
        .error "Cannot get info for a user with a non-twitter provider"

/-- The condition under which `get_user_id` raises the not-connected
`SocialMediaException` when the social id is not cached: no linked account
row, or a first row with a non-twitter provider (services.py:251-267). -/
def notConnected (u : User) : Bool :=
  match u.social_auth with
  | [] => true
  | sa :: _ => sa.provider != "twitter"

/-- One iteration of the first loop of `get_users_info` (services.py:94-102):
derive the key and id for one user and store them in the dict, or skip the
user (with a logged warning) when `get_user_id` raises
`SocialMediaException`. -/
def buildStep (acc : List (String × Nat) × Cache × List CacheWrite)
    (user : User) : List (String × Nat) × Cache × List CacheWrite :=
  match get_user_id acc.2.1 user with
  | .error _ => acc
  | .ok (user_id, c', ws) =>
    (alSet (get_user_cache_key user "info") user_id acc.1, c', acc.2.2 ++ ws)

/-- The first loop of `get_users_info` (services.py:94-102): build the dict
`cache_key => user_id`; social-id cache writes made along the way are
threaded through and logged. -/
def buildData (cache : Cache) (users : List User) :
    List (String × Nat) × Cache × List CacheWrite :=
  users.foldl buildStep ([], cache, [])

/-- services.py:105-108: `dict([(user_id, cache_key) for cache_key, user_id
in data.items()])` — later items overwrite earlier ones, so when two keys
share a `user_id` the key iterated last wins.  The embedding iterates `data`
in list order, while CPython 2.7's `data.items()` iterates in hash order;
the one claim whose verdict depends on the collision winner is settled at an
input where the two orders pick the same key. -/
def mkReverseData (data : List (String × Nat)) : List (Nat × String) :=
  data.foldl (fun r p => alSet p.2 p.1 r) []

/-- `cache.get_many(keys)`: the sub-dict of present keys. -/
def cacheGetMany (c : Cache) (keys : List String) : List (String × UserInfo) :=
  keys.filterMap (fun k => (alGet k c.infoStore).map (fun v => (k, v)))

/-- Fuel-indexed splitting into consecutive groups of `n + 1`; the fuel only
serves structural recursion and is irrelevant once it reaches the list
length. -/
def chunkFuel {α : Type} : Nat → List α → Nat → List (List α)
  | 0, _, _ => []
  | _ + 1, [], _ => []
  | _ + 1, x :: xs, 0 => [x :: xs]
  | f + 1, x :: xs, n + 1 =>
    (x :: xs).take (n + 1) :: chunkFuel f ((x :: xs).drop (n + 1)) (n + 1)

/-- Modelled from the spec: `chunk` comes from `hatch/utils.py`, which is not
in the snapshot; the spec says misses are batched "into fixed-size groups
(100 per group — the remote API's batch limit)".  Splits a list into
consecutive groups of `n` (the degenerate `n = 0`, never used, yields the
whole list). -/
def chunk {α : Type} (l : List α) (n : Nat) : List (List α) :=
  chunkFuel l.length l n

/-- Everything observable about one `get_users_info` call: the returned
`all_info.values()`, the final cache and user table, the log of cache writes,
the id groups passed to `t.users.lookup` (issued even when they error), and
the call's `all_info` (pre-update cache hits), `new_info`, `questionable_ids`,
miss keys and miss ids. -/
structure FetchOutcome where
  values : List UserInfo
  cache : Cache
  db : List User
  writes : List CacheWrite
  apiCalls : List (List Nat)
  hits : List (String × UserInfo)
  fetched : List (String × UserInfo)
  questionable : List Nat
  missKeys : List String
  missIds : List Nat
deriving DecidableEq, Repr

/-- services.py:150-152: store one returned profile in `new_info` under
`reverse_data[str(info['id'])]` (in the embedding the looked-up id is always
a requested one, so the reverse dict always has it; a missing id is skipped
where the Python would raise `KeyError`). -/
def recordInfo (reverse_data : List (Nat × String))
    (ni : List (String × UserInfo)) (info : UserInfo) :
    List (String × UserInfo) :=
  match alGet info.id reverse_data with
  | some cache_key => alSet cache_key info ni
  | none => ni

/-- One iteration of the lookup loop (services.py:144-155): call
`t.users.lookup` on `id_group` — a `TwitterHTTPError` degrades the response
to `[]` — key each profile through `reverse_data` into `new_info`, rebind
`seen_ids` to this group's response ids, and extend `questionable_ids` with
the group members absent from them; the issued call is recorded. -/
def lookupStep (dir : Nat → Option String) (apiFails : List Nat → Bool)
    (reverse_data : List (Nat × String))
    (acc : List (String × UserInfo) × List Nat × List Nat × List (List Nat))
    (id_group : List Nat) :
    List (String × UserInfo) × List Nat × List Nat × List (List Nat) :=
  let bulk_info :=
    if apiFails id_group then []
    else id_group.filterMap (fun u => (dir u).map (fun p => UserInfo.mk u p))
  let new_info' := bulk_info.foldl (recordInfo reverse_data) acc.1
  let seen_ids' := bulk_info.map (fun info => info.id)
  (new_info',
   acc.2.1 ++ id_group.filter (fun u => !seen_ids'.contains u),
   seen_ids',
   acc.2.2.2 ++ [id_group])

/-- The whole lookup loop, returning `(new_info, questionable_ids, seen_ids,
issued calls)`; as in the Python, `seen_ids` ends up holding the ids of the
last group's response only. -/
def lookupGroups (dir : Nat → Option String) (apiFails : List Nat → Bool)
    (reverse_data : List (Nat × String)) (groups : List (List Nat)) :
    List (String × UserInfo) × List Nat × List Nat × List (List Nat) :=
  groups.foldl (lookupStep dir apiFails reverse_data) ([], [], [], [])

/-- services.py:186-187: `User.objects.filter(social_auth__uid__in=seen_ids)
.update(sm_not_found=False)` — clear the flag on every table row with a
linked uid among `seen_ids`. -/
def markSeen (seen_ids : List Nat) (db : List User) : List User :=
  db.map (fun u =>
    if u.social_auth.any (fun sa => seen_ids.contains sa.uid) then
      { u with sm_not_found := false }
    else u)

/-- services.py:189-190: `User.objects.filter(social_auth__uid__in=
questionable_ids).update(sm_not_found=True)`. -/
def markQuestionable (questionable_ids : List Nat) (db : List User) :
    List User :=
  db.map (fun u =>
    if u.social_auth.any (fun sa => questionable_ids.contains sa.uid) then
      { u with sm_not_found := true }
    else u)

/-- services.py:110-118: the batched cache read — skipped (treating all keys
as misses) only when `force_refresh` is set and at most 6000 keys were
derived. -/
def allInfoOf (force_refresh : Bool)
    (bd : List (String × Nat) × Cache × List CacheWrite) :
    List (String × UserInfo) :=
  if !force_refresh || bd.1.length > 6000 then
    cacheGetMany bd.2.1 (bd.1.map Prod.fst)
  else []

/-- services.py:121: the dict entries whose key has no cached data. -/
def uncachedOf (force_refresh : Bool)
    (bd : List (String × Nat) × Cache × List CacheWrite) :
    List (String × Nat) :=
  bd.1.filter (fun p => !alHasKey p.1 (allInfoOf force_refresh bd))

/-- `get_users_info` after the key/id dict has been built (services.py:
105-192), as a function of `(data, cache, writes so far)`: the reverse dict,
the batched cache read, the miss filter, the 100-id chunked lookup loop, the
single `set_many`, the `all_info` update, and the two bulk `sm_not_found`
updates (`seen_users` first, then `questionable_users`, each filtering the
whole `User` table by membership of a linked uid in the id set). -/
def fetchCore (db : List User) (dir : Nat → Option String)
    (apiFails : List Nat → Bool) (force_refresh : Bool)
    (bd : List (String × Nat) × Cache × List CacheWrite) : FetchOutcome :=
  let data := bd.1
  let cache1 := bd.2.1
  let writes1 := bd.2.2
  let reverse_data := mkReverseData data
  let all_info := allInfoOf force_refresh bd
  let uncached := uncachedOf force_refresh bd
  if uncached.isEmpty then
    { values := all_info.map Prod.snd, cache := cache1, db := db,
      writes := writes1, apiCalls := [], hits := all_info, fetched := [],
      questionable := [], missKeys := [], missIds := [] }
  else
    let user_ids := uncached.map Prod.snd
    let res := lookupGroups dir apiFails reverse_data (chunk user_ids 100)
    let new_info := res.1
    let questionable_ids := res.2.1
    let seen_ids := res.2.2.1
    let calls := res.2.2.2
    let cache2 := { cache1 with infoStore := alUpdate cache1.infoStore new_info }
    let all_info2 := alUpdate all_info new_info
    let db2 := markQuestionable questionable_ids (markSeen seen_ids db)
    { values := all_info2.map Prod.snd, cache := cache2, db := db2,
      writes := writes1 ++ [CacheWrite.setManyInfo new_info],
      apiCalls := calls, hits := all_info, fetched := new_info,
      questionable := questionable_ids, missKeys := uncached.map Prod.fst,
      missIds := user_ids }

/-- `get_users_info` (services.py:92-192).  `db` is the `User` table the
final bulk updates filter over; `dir` and `apiFails` model the remote API. -/
def get_users_info (db : List User) (cache0 : Cache)
    (dir : Nat → Option String) (apiFails : List Nat → Bool)
    (users : List User) (force_refresh : Bool) : FetchOutcome :=
  fetchCore db dir apiFails force_refresh (buildData cache0 users)

/-! ### Concrete inputs used by witnesses and counterexamples -/

def emptyCache : Cache := { infoStore := [], sidStore := [] }

/-- A user with primary key `i` linked to the twitter account with uid `i`. -/
def mkU (i : Nat) : User :=
  { pk := i, username := "", social_auth := [{ provider := "twitter", uid := i }],
    sm_not_found := false }

/-- A remote directory in which every uid resolves to a profile. -/
def dirAll : Nat → Option String := fun _ => some "profile"

def noFail : List Nat → Bool := fun _ => false

def failAll : List Nat → Bool := fun _ => true

/-- A cache holding a profile-info entry for `mkU 1` and nothing else. -/
def cacheOne : Cache :=
  { infoStore := [(get_user_cache_key (mkU 1) "info", { id := 1, payload := "cached" })],
    sidStore := [] }

/-- The table row for uid 0, previously flagged not-found. -/
def c1FoundUser : User :=
  { pk := 0, username := "", social_auth := [{ provider := "twitter", uid := 0 }],
    sm_not_found := true }

/-- 101 requested users: their uncached ids split into a group of 100 and a
group of 1. -/
def c1Users : List User := (List.range 101).map mkU

/-- 6001 requested users, one more than the `force_refresh` cap. -/
def c2Users : List User := (List.range 6001).map mkU

/-- Two local users linked to the same remote uid 5; `u7b`'s info key
(`user-2:info`) is cached, `u7a`'s (`user-1:info`) is not.  Requested as
`[u7a, u7b]`, the embedding's dict order puts `user-2:info` second, so it
wins the `reverse_data` collision on uid 5 — and CPython 2.7's hash-order
iteration agrees: `hash('user-1:info') & 7 = 0` and
`hash('user-2:info') & 7 = 1` in an 8-slot dict, so `data.items()` also
yields `user-2:info` last, whatever the insertion order. -/
def u7a : User :=
  { pk := 1, username := "", social_auth := [{ provider := "twitter", uid := 5 }],
    sm_not_found := false }

def u7b : User :=
  { pk := 2, username := "", social_auth := [{ provider := "twitter", uid := 5 }],
    sm_not_found := false }

def old7 : UserInfo := { id := 5, payload := "old" }

def cache7 : Cache :=
  { infoStore := [(get_user_cache_key u7b "info", old7)], sidStore := [] }

/-- A remote directory returning a fresh payload for every uid. -/
def dirNew : Nat → Option String := fun _ => some "new"

/-- A user with no linked social account. -/
def u8bad : User :=
  { pk := 3, username := "nobody", social_auth := [], sm_not_found := false }

/-! ### Association-list lemmas -/

/-- The keys of an association list. -/
def alKeys {κ α : Type} (l : List (κ × α)) : List κ :=
  l.map Prod.fst

theorem alGet_nil {κ α : Type} [DecidableEq κ] (k : κ) :
    alGet k ([] : List (κ × α)) = none := rfl

theorem alGet_cons {κ α : Type} [DecidableEq κ] (k k' : κ) (v : α)
    (l : List (κ × α)) :
    alGet k ((k', v) :: l) = if k' = k then some v else alGet k l := rfl

theorem alGet_eq_none_iff {κ α : Type} [DecidableEq κ] (k : κ)
    (l : List (κ × α)) : alGet k l = none ↔ k ∉ alKeys l := by
  induction l with
  | nil => simp [alGet, alKeys]
  | cons p l ih =>
    obtain ⟨k', v⟩ := p
    rw [alGet_cons]
    by_cases h : k' = k
    · subst h
      simp [alKeys]
    · simp [h, ih, alKeys, Ne.symm h]

theorem alHasKey_iff_mem {κ α : Type} [DecidableEq κ] (k : κ)
    (l : List (κ × α)) : alHasKey k l = true ↔ k ∈ alKeys l := by
  rw [alHasKey, Option.isSome_iff_ne_none, ne_eq, alGet_eq_none_iff, not_not]

theorem alGet_mem {κ α : Type} [DecidableEq κ] {k : κ} {v : α}
    {l : List (κ × α)} (h : alGet k l = some v) : (k, v) ∈ l := by
  induction l with
  | nil => simp [alGet] at h
  | cons p l ih =>
    obtain ⟨k', v'⟩ := p
    by_cases hk : k' = k
    · subst hk
      rw [alGet_cons, if_pos rfl] at h
      simp [← Option.some.injEq _ _ |>.mp h]
    · rw [alGet_cons, if_neg hk] at h
      exact List.mem_cons_of_mem _ (ih h)

theorem mem_alGet {κ α : Type} [DecidableEq κ] {k : κ} {v : α}
    {l : List (κ × α)} (h : (k, v) ∈ l) (hnd : (alKeys l).Nodup) :
    alGet k l = some v := by
  induction l with
  | nil => simp at h
  | cons p l ih =>
    obtain ⟨k', v'⟩ := p
    simp only [alKeys, List.map_cons, List.nodup_cons] at hnd
    rcases List.mem_cons.mp h with h | h
    · injection h with h1 h2
      subst h1
      subst h2
      simp [alGet_cons]
    · have hk : k' ≠ k := by
        intro hkk
        subst hkk
        exact hnd.1 (by simpa [alKeys] using List.mem_map_of_mem Prod.fst h)
      rw [alGet_cons, if_neg hk]
      exact ih h hnd.2

theorem alGet_append {κ α : Type} [DecidableEq κ] (k : κ)
    (l l' : List (κ × α)) :
    alGet k (l ++ l') =
      match alGet k l with
      | some v => some v
      | none => alGet k l' := by
  induction l with
  | nil => simp [alGet]
  | cons p l ih =>
    obtain ⟨k', v⟩ := p
    by_cases h : k' = k <;> simp [alGet_cons, h, ih]

theorem alGet_alSet_self {κ α : Type} [DecidableEq κ] (k : κ) (v : α)
    (l : List (κ × α)) : alGet k (alSet k v l) = some v := by
  induction l with
  | nil => simp [alSet, alGet_cons]
  | cons p l ih =>
    obtain ⟨k', v'⟩ := p
    by_cases hk : k' = k
    · simp [alSet, hk, alGet_cons]
    · simp [alSet, hk, alGet_cons, ih]

theorem alGet_alSet_ne {κ α : Type} [DecidableEq κ] {k k' : κ} (v : α)
    (l : List (κ × α)) (hk : k' ≠ k) :
    alGet k' (alSet k v l) = alGet k' l := by
  induction l with
  | nil => simp [alSet, alGet_cons, Ne.symm hk]
  | cons p l ih =>
    obtain ⟨k₁, v₁⟩ := p
    by_cases hk1 : k₁ = k
    · subst hk1
      simp [alSet, alGet_cons, Ne.symm hk, fun h : k₁ = k' => hk h.symm]
    · by_cases hk2 : k₁ = k'
      · subst hk2
        simp [alSet, hk1, alGet_cons]
      · simp [alSet, hk1, alGet_cons, hk2, ih]

theorem mem_alSet {κ α : Type} [DecidableEq κ] {x : κ × α} {k : κ} {v : α}
    {l : List (κ × α)} (h : x ∈ alSet k v l) : x = (k, v) ∨ x ∈ l := by
  induction l with
  | nil => simpa [alSet] using h
  | cons p l ih =>
    obtain ⟨k', v'⟩ := p
    by_cases hk : k' = k
    · rw [alSet, if_pos hk] at h
      rcases List.mem_cons.mp h with h | h
      · exact Or.inl h
      · exact Or.inr (List.mem_cons_of_mem _ h)
    · rw [alSet, if_neg hk] at h
      rcases List.mem_cons.mp h with h | h
      · exact Or.inr (by simp [h])
      · rcases ih h with h | h
        · exact Or.inl h
        · exact Or.inr (List.mem_cons_of_mem _ h)

theorem alKeys_alSet {κ α : Type} [DecidableEq κ] (k : κ) (v : α)
    (l : List (κ × α)) :
    alKeys (alSet k v l) =
      if k ∈ alKeys l then alKeys l else alKeys l ++ [k] := by
  induction l with
  | nil => simp [alSet, alKeys]
  | cons p l ih =>
    obtain ⟨k', v'⟩ := p
    by_cases hk : k' = k
    · subst hk
      simp [alSet, alKeys]
    · rw [alSet, if_neg hk]
      have hne : ¬k = k' := fun h => hk h.symm
      simp only [alKeys, List.map_cons] at *
      rw [ih]
      by_cases hm : k ∈ List.map Prod.fst l
      · simp [List.mem_cons, hm, hne]
      · simp [List.mem_cons, hm, hne]

theorem alKeys_alSet_nodup {κ α : Type} [DecidableEq κ] (k : κ) (v : α)
    {l : List (κ × α)} (h : (alKeys l).Nodup) :
    (alKeys (alSet k v l)).Nodup := by
  rw [alKeys_alSet]
  by_cases hm : k ∈ alKeys l
  · simpa [hm] using h
  · simp only [hm, if_false]
    simp [List.nodup_append, h, hm]

theorem alGet_alUpdate {κ α : Type} [DecidableEq κ] (l m : List (κ × α))
    (k : κ) (hnd : (alKeys m).Nodup) :
    alGet k (alUpdate l m) =
      match alGet k m with
      | some v => some v
      | none => alGet k l := by
  induction m generalizing l with
  | nil => simp [alUpdate, alGet]
  | cons p m ih =>
    obtain ⟨k1, v1⟩ := p
    simp only [alKeys, List.map_cons, List.nodup_cons] at hnd
    have step : alUpdate l ((k1, v1) :: m) = alUpdate (alSet k1 v1 l) m := rfl
    rw [step, ih _ hnd.2, alGet_cons]
    by_cases hk : k1 = k
    · subst hk
      have hnone : alGet k1 m = none :=
        (alGet_eq_none_iff k1 m).mpr (by simpa [alKeys] using hnd.1)
      simp [hnone, alGet_alSet_self]
    · rw [if_neg hk]
      cases alGet k m with
      | none => simp [alGet_alSet_ne v1 l (fun h : k = k1 => hk h.symm)]
      | some v => simp

theorem alKeys_alUpdate_nodup {κ α : Type} [DecidableEq κ]
    {l : List (κ × α)} (m : List (κ × α)) (h : (alKeys l).Nodup) :
    (alKeys (alUpdate l m)).Nodup := by
  induction m generalizing l with
  | nil => exact h
  | cons p m ih => exact ih (alKeys_alSet_nodup p.1 p.2 h)

/-! ### `cacheGetMany`, `chunk` and `mkReverseData` lemmas -/

theorem alGet_cacheGetMany (c : Cache) (ks : List String) (k : String) :
    alGet k (cacheGetMany c ks) =
      if k ∈ ks then alGet k c.infoStore else none := by
  induction ks with
  | nil => simp [cacheGetMany, alGet]
  | cons k1 ks ih =>
    by_cases hk : k1 = k
    · subst hk
      cases h1 : alGet k1 c.infoStore with
      | none =>
        simp only [cacheGetMany, List.filterMap_cons, h1, Option.map_none'] at *
        rw [ih]
        by_cases hm : k1 ∈ ks <;> simp [hm, h1]
      | some v =>
        simp [cacheGetMany, List.filterMap_cons, h1, alGet_cons]
    · have hk' : ¬k = k1 := fun h => hk h.symm
      cases h1 : alGet k1 c.infoStore with
      | none =>
        simp only [cacheGetMany, List.filterMap_cons, h1, Option.map_none'] at *
        rw [ih]
        simp [List.mem_cons, hk']
      | some v =>
        simp only [cacheGetMany, List.filterMap_cons, h1, Option.map_some'] at *
        rw [alGet_cons, if_neg hk, ih]
        simp [List.mem_cons, hk']

theorem chunkFuel_length_le {α : Type} (f : Nat) (l : List α) (n : Nat) :
    ∀ g ∈ chunkFuel f l (n + 1), g.length ≤ n + 1 := by
  induction f generalizing l with
  | zero => simp [chunkFuel]
  | succ f ih =>
    cases l with
    | nil => simp [chunkFuel]
    | cons x xs =>
      intro g hg
      rw [chunkFuel] at hg
      rcases List.mem_cons.mp hg with h | h
      · subst h
        simp [List.length_take]
      · exact ih _ g h

theorem chunk_length_le {α : Type} (l : List α) (n : Nat) :
    ∀ g ∈ chunk l (n + 1), g.length ≤ n + 1 :=
  chunkFuel_length_le l.length l n

theorem mkReverseData_sub (data : List (String × Nat)) :
    ∀ (l : List (String × Nat)) (acc : List (Nat × String)),
      (∀ p ∈ acc, (p.2, p.1) ∈ data) → (∀ q ∈ l, q ∈ data) →
      ∀ p ∈ l.foldl (fun r q => alSet q.2 q.1 r) acc, (p.2, p.1) ∈ data := by
  intro l
  induction l with
  | nil => exact fun acc hacc _ p hp => hacc p hp
  | cons q l ih =>
    intro acc hacc hl p hp
    refine ih (alSet q.2 q.1 acc) ?_
      (fun x hx => hl x (List.mem_cons_of_mem _ hx)) p hp
    intro r hr
    rcases mem_alSet hr with h | h
    · subst h
      simpa using hl q (List.mem_cons_self ..)
    · exact hacc r h

theorem mkReverseData_mem {data : List (String × Nat)} {u : Nat} {k : String}
    (h : alGet u (mkReverseData data) = some k) : (k, u) ∈ data :=
  mkReverseData_sub data data [] (by simp) (fun _ hq => hq) (u, k) (alGet_mem h)

/-! ### Injectivity of the decimal cache keys

`get_user_cache_key` renders the primary key in decimal (`'user-%s' %
user.pk` in the source, `toString` here), so distinct primary keys give
distinct cache keys.  Lean 4.14's library has no injectivity lemma for
`Nat.repr`, so we derive one from a big-endian digit-list specification. -/

/-- Big-endian decimal digit characters of `n`. -/
def decChars (n : Nat) : List Char :=
  if n < 10 then [Nat.digitChar n]
  else decChars (n / 10) ++ [Nat.digitChar (n % 10)]
termination_by n
decreasing_by
  exact Nat.div_lt_self (by omega) (by omega)

/-- Decimal value of a digit-character list. -/
def decValue (l : List Char) : Nat :=
  l.foldl (fun a c => 10 * a + (c.toNat - 48)) 0

theorem decValue_append_digit (l : List Char) (c : Char) :
    decValue (l ++ [c]) = 10 * decValue l + (c.toNat - 48) := by
  simp [decValue, List.foldl_append]

theorem digitChar_toNat : ∀ d : Nat, d < 10 → (Nat.digitChar d).toNat = 48 + d := by
  decide

theorem decValue_decChars (n : Nat) : decValue (decChars n) = n := by
  induction n using Nat.strong_induction_on with
  | _ n ih =>
    by_cases h : n < 10
    · rw [decChars, if_pos h]
      simp [decValue, digitChar_toNat n h]
    · rw [decChars, if_neg h, decValue_append_digit,
        ih (n / 10) (Nat.div_lt_self (by omega) (by omega)),
        digitChar_toNat _ (Nat.mod_lt _ (by omega))]
      omega

theorem decChars_inj {m n : Nat} (h : decChars m = decChars n) : m = n := by
  have h' := congrArg decValue h
  rwa [decValue_decChars, decValue_decChars] at h'

theorem toDigitsCore_eq_decChars (fuel : Nat) :
    ∀ (n : Nat) (ds : List Char), n < fuel →
      Nat.toDigitsCore 10 fuel n ds = decChars n ++ ds := by
  induction fuel with
  | zero => omega
  | succ fuel ih =>
    intro n ds h
    by_cases h0 : n / 10 = 0
    · have hn : n < 10 := by omega
      simp only [Nat.toDigitsCore, h0, if_true]
      rw [decChars, if_pos hn, Nat.mod_eq_of_lt hn]
      simp
    · have hn : ¬n < 10 := by omega
      have hlt : n / 10 < fuel :=
        lt_of_lt_of_le (Nat.div_lt_self (by omega) (by omega))
          (Nat.lt_succ_iff.mp h)
      have hrec : decChars n = decChars (n / 10) ++ [Nat.digitChar (n % 10)] := by
        conv_lhs => rw [decChars]
        rw [if_neg hn]
      simp only [Nat.toDigitsCore, h0, if_false]
      rw [ih (n / 10) _ hlt, hrec]
      simp

theorem Nat_repr_data (n : Nat) : (Nat.repr n).data = decChars n := by
  have h1 : (Nat.repr n).data = Nat.toDigitsCore 10 (n + 1) n [] := rfl
  rw [h1, toDigitsCore_eq_decChars (n + 1) n [] (Nat.lt_succ_self n)]
  simp

theorem Nat_toString_data_inj {m n : Nat}
    (h : (toString m : String).data = (toString n : String).data) : m = n := by
  have hm : (toString m : String).data = decChars m := Nat_repr_data m
  have hn : (toString n : String).data = decChars n := Nat_repr_data n
  exact decChars_inj ((hm.symm.trans h).trans hn)

theorem String_data_append (s t : String) : (s ++ t).data = s.data ++ t.data := by
  obtain ⟨a⟩ := s
  obtain ⟨b⟩ := t
  rfl

theorem get_user_cache_key_inj {u u' : User} {e : String}
    (h : get_user_cache_key u e = get_user_cache_key u' e) : u.pk = u'.pk := by
  have hd := congrArg String.data h
  simp only [get_user_cache_key, String_data_append, List.append_assoc] at hd
  have h1 := List.append_cancel_left hd
  have h2 := List.append_cancel_right h1
  exact Nat_toString_data_inj h2

theorem get_user_cache_key_ne {u u' : User} {e : String} (h : u.pk ≠ u'.pk) :
    get_user_cache_key u e ≠ get_user_cache_key u' e :=
  fun hk => h (get_user_cache_key_inj hk)

/-! ### `get_user_id` and `buildData` lemmas -/

theorem alSet_not_mem {κ α : Type} [DecidableEq κ] {k : κ} (v : α)
    {l : List (κ × α)} (h : alGet k l = none) : alSet k v l = l ++ [(k, v)] := by
  induction l with
  | nil => rfl
  | cons p l ih =>
    obtain ⟨k', v'⟩ := p
    rw [alGet_cons] at h
    by_cases hk : k' = k
    · simp [hk] at h
    · rw [if_neg hk] at h
      rw [alSet, if_neg hk, ih h]
      simp

theorem get_user_id_ok_cases {c : Cache} {u : User} {i : Nat} {c' : Cache}
    {ws : List CacheWrite} (h : get_user_id c u = .ok (i, c', ws)) :
    (c' = c ∧ ws = []) ∨
      (c' = { c with
          sidStore := alSet (get_user_cache_key u "social-id") i c.sidStore } ∧
        ws = [CacheWrite.setSid (get_user_cache_key u "social-id") i 60]) := by
  unfold get_user_id at h
  cases hg : alGet (get_user_cache_key u "social-id") c.sidStore with
  | some sid =>
    simp only [hg] at h
    simp only [Except.ok.injEq, Prod.mk.injEq] at h
    exact Or.inl ⟨h.2.1.symm, h.2.2.symm⟩
  | none =>
    simp only [hg] at h
    cases hsa : u.social_auth with
    | nil =>
      simp only [hsa] at h
      exact absurd h (by simp)
    | cons sa tl =>
      simp only [hsa] at h
      by_cases hp : sa.provider = "twitter"
      · rw [if_pos hp] at h
        simp only [Except.ok.injEq, Prod.mk.injEq] at h
        obtain ⟨h1, h2, h3⟩ := h
        subst h1
        exact Or.inr ⟨h2.symm, h3.symm⟩
      · rw [if_neg hp] at h
        exact absurd h (by simp)

theorem get_user_id_infoStore {c : Cache} {u : User} {i : Nat} {c' : Cache}
    {ws : List CacheWrite} (h : get_user_id c u = .ok (i, c', ws)) :
    c'.infoStore = c.infoStore := by
  rcases get_user_id_ok_cases h with ⟨h1, _⟩ | ⟨h1, _⟩ <;> rw [h1]

theorem get_user_id_sidStore {c : Cache} {u : User} {i : Nat} {c' : Cache}
    {ws : List CacheWrite} (h : get_user_id c u = .ok (i, c', ws)) :
    c'.sidStore = c.sidStore ∨
      c'.sidStore =
        alSet (get_user_cache_key u "social-id") i c.sidStore := by
  rcases get_user_id_ok_cases h with ⟨h1, _⟩ | ⟨h1, _⟩
  · exact Or.inl (by rw [h1])
  · exact Or.inr (by rw [h1])

theorem get_user_id_writes {c : Cache} {u : User} {i : Nat} {c' : Cache}
    {ws : List CacheWrite} (h : get_user_id c u = .ok (i, c', ws)) :
    ws = [] ∨ ∃ k v, ws = [CacheWrite.setSid k v 60] := by
  rcases get_user_id_ok_cases h with ⟨_, h2⟩ | ⟨_, h2⟩
  · exact Or.inl h2
  · exact Or.inr ⟨_, _, h2⟩

theorem foldl_buildStep_infoStore (users : List User) :
    ∀ acc : List (String × Nat) × Cache × List CacheWrite,
      (users.foldl buildStep acc).2.1.infoStore = acc.2.1.infoStore := by
  induction users with
  | nil => intro acc; rfl
  | cons u users ih =>
    intro acc
    rw [List.foldl_cons, ih]
    rw [buildStep]
    cases h : get_user_id acc.2.1 u with
    | error e => rfl
    | ok r =>
      obtain ⟨i, c', ws⟩ := r
      exact get_user_id_infoStore h

theorem buildData_infoStore (c : Cache) (users : List User) :
    (buildData c users).2.1.infoStore = c.infoStore :=
  foldl_buildStep_infoStore users ([], c, [])

theorem foldl_buildStep_writes (users : List User) :
    ∀ acc : List (String × Nat) × Cache × List CacheWrite,
      (∀ w ∈ acc.2.2, ∃ k v, w = CacheWrite.setSid k v 60) →
      ∀ w ∈ (users.foldl buildStep acc).2.2,
        ∃ k v, w = CacheWrite.setSid k v 60 := by
  induction users with
  | nil => exact fun acc h => h
  | cons u users ih =>
    intro acc hacc
    rw [List.foldl_cons]
    refine ih _ ?_
    rw [buildStep]
    cases h : get_user_id acc.2.1 u with
    | error e => exact hacc
    | ok r =>
      obtain ⟨i, c', ws⟩ := r
      intro w hw
      rcases List.mem_append.mp hw with hw | hw
      · exact hacc w hw
      · rcases get_user_id_writes h with h' | ⟨k, v, h'⟩
        · subst h'
          simp at hw
        · subst h'
          simp at hw
          exact ⟨k, v, hw⟩

theorem buildData_writes (c : Cache) (users : List User) :
    ∀ w ∈ (buildData c users).2.2, ∃ k v, w = CacheWrite.setSid k v 60 :=
  foldl_buildStep_writes users ([], c, []) (by simp)

theorem foldl_buildStep_nodup (users : List User) :
    ∀ acc : List (String × Nat) × Cache × List CacheWrite,
      (alKeys acc.1).Nodup → (alKeys (users.foldl buildStep acc).1).Nodup := by
  induction users with
  | nil => exact fun acc h => h
  | cons u users ih =>
    intro acc hacc
    rw [List.foldl_cons]
    refine ih _ ?_
    rw [buildStep]
    cases h : get_user_id acc.2.1 u with
    | error e => exact hacc
    | ok r =>
      obtain ⟨i, c', ws⟩ := r
      exact alKeys_alSet_nodup _ _ hacc

theorem buildData_keys_nodup (c : Cache) (users : List User) :
    (alKeys (buildData c users).1).Nodup :=
  foldl_buildStep_nodup users ([], c, []) (by simp [alKeys])

/-! ### Lookup-loop lemmas -/

theorem lookupStep_fst (dir : Nat → Option String) (f : List Nat → Bool)
    (r : List (Nat × String)) (acc) (g : List Nat) :
    (lookupStep dir f r acc g).1 =
      (if f g then []
        else g.filterMap
          (fun u => (dir u).map (fun p => UserInfo.mk u p))).foldl
        (recordInfo r) acc.1 := rfl

theorem lookupStep_calls (dir : Nat → Option String) (f : List Nat → Bool)
    (r : List (Nat × String)) (acc) (g : List Nat) :
    (lookupStep dir f r acc g).2.2.2 = acc.2.2.2 ++ [g] := rfl

theorem foldl_lookupStep_calls (dir : Nat → Option String)
    (f : List Nat → Bool) (r : List (Nat × String))
    (groups : List (List Nat)) :
    ∀ acc, (groups.foldl (lookupStep dir f r) acc).2.2.2 =
      acc.2.2.2 ++ groups := by
  induction groups with
  | nil => intro acc; simp
  | cons g groups ih =>
    intro acc
    rw [List.foldl_cons, ih, lookupStep_calls]
    simp

theorem lookupGroups_calls (dir : Nat → Option String) (f : List Nat → Bool)
    (r : List (Nat × String)) (groups : List (List Nat)) :
    (lookupGroups dir f r groups).2.2.2 = groups := by
  rw [lookupGroups, foldl_lookupStep_calls]
  simp

theorem foldl_lookupStep_questionable_mono (dir : Nat → Option String)
    (f : List Nat → Bool) (r : List (Nat × String))
    (groups : List (List Nat)) :
    ∀ acc x, x ∈ acc.2.1 →
      x ∈ (groups.foldl (lookupStep dir f r) acc).2.1 := by
  induction groups with
  | nil => exact fun acc x h => h
  | cons g groups ih =>
    intro acc x hx
    rw [List.foldl_cons]
    refine ih _ x ?_
    simp only [lookupStep]
    exact List.mem_append_left _ hx

theorem foldl_lookupStep_fail_questionable (dir : Nat → Option String)
    (f : List Nat → Bool) (r : List (Nat × String))
    (groups : List (List Nat)) :
    ∀ acc g, g ∈ groups → f g = true →
      ∀ u ∈ g, u ∈ (groups.foldl (lookupStep dir f r) acc).2.1 := by
  induction groups with
  | nil => simp
  | cons g0 groups ih =>
    intro acc g hg hf u hu
    rw [List.foldl_cons]
    rcases List.mem_cons.mp hg with h | h
    · subst h
      refine foldl_lookupStep_questionable_mono dir f r groups _ u ?_
      simp only [lookupStep, hf, if_true]
      refine List.mem_append_right _ ?_
      simp [hu]
    · exact ih _ g h hf u hu

theorem foldl_recordInfo_nodup (r : List (Nat × String))
    (bulk : List UserInfo) :
    ∀ ni : List (String × UserInfo), (alKeys ni).Nodup →
      (alKeys (bulk.foldl (recordInfo r) ni)).Nodup := by
  induction bulk with
  | nil => exact fun ni h => h
  | cons i bulk ih =>
    intro ni h
    rw [List.foldl_cons]
    refine ih _ ?_
    rw [recordInfo]
    cases alGet i.id r with
    | some ck => exact alKeys_alSet_nodup _ _ h
    | none => exact h

theorem foldl_lookupStep_nodup (dir : Nat → Option String)
    (f : List Nat → Bool) (r : List (Nat × String))
    (groups : List (List Nat)) :
    ∀ acc, (alKeys acc.1).Nodup →
      (alKeys (groups.foldl (lookupStep dir f r) acc).1).Nodup := by
  induction groups with
  | nil => exact fun acc h => h
  | cons g groups ih =>
    intro acc hacc
    rw [List.foldl_cons]
    refine ih _ ?_
    rw [lookupStep_fst]
    exact foldl_recordInfo_nodup r _ acc.1 hacc

theorem lookupGroups_nodup (dir : Nat → Option String) (f : List Nat → Bool)
    (r : List (Nat × String)) (groups : List (List Nat)) :
    (alKeys (lookupGroups dir f r groups).1).Nodup :=
  foldl_lookupStep_nodup dir f r groups ([], [], [], []) (by simp [alKeys])

theorem foldl_recordInfo_good (r : List (Nat × String))
    (bulk : List UserInfo) :
    ∀ ni : List (String × UserInfo),
      (∀ p ∈ ni, alGet p.2.id r = some p.1) →
      ∀ p ∈ bulk.foldl (recordInfo r) ni, alGet p.2.id r = some p.1 := by
  induction bulk with
  | nil => exact fun ni h => h
  | cons i bulk ih =>
    intro ni hni
    rw [List.foldl_cons]
    refine ih _ ?_
    intro p hp
    rw [recordInfo] at hp
    cases hg : alGet i.id r with
    | none =>
      rw [hg] at hp
      exact hni p hp
    | some ck =>
      rw [hg] at hp
      rcases mem_alSet hp with h | h
      · subst h
        exact hg
      · exact hni p h

theorem foldl_lookupStep_good (dir : Nat → Option String)
    (f : List Nat → Bool) (r : List (Nat × String))
    (groups : List (List Nat)) :
    ∀ acc, (∀ p ∈ acc.1, alGet p.2.id r = some p.1) →
      ∀ p ∈ (groups.foldl (lookupStep dir f r) acc).1,
        alGet p.2.id r = some p.1 := by
  induction groups with
  | nil => exact fun acc h => h
  | cons g groups ih =>
    intro acc hacc
    rw [List.foldl_cons]
    refine ih _ ?_
    rw [lookupStep_fst]
    exact foldl_recordInfo_good r _ acc.1 hacc

theorem lookupGroups_good (dir : Nat → Option String) (f : List Nat → Bool)
    (r : List (Nat × String)) (groups : List (List Nat)) :
    ∀ p ∈ (lookupGroups dir f r groups).1, alGet p.2.id r = some p.1 :=
  foldl_lookupStep_good dir f r groups ([], [], [], []) (by simp)

/-! ### Branch lemmas for `fetchCore` -/

theorem fetchCore_hit {db : List User} {dir : Nat → Option String}
    {f : List Nat → Bool} {fr : Bool}
    {bd : List (String × Nat) × Cache × List CacheWrite}
    (h : (uncachedOf fr bd).isEmpty = true) :
    fetchCore db dir f fr bd =
      { values := (allInfoOf fr bd).map Prod.snd, cache := bd.2.1, db := db,
        writes := bd.2.2, apiCalls := [], hits := allInfoOf fr bd,
        fetched := [], questionable := [], missKeys := [], missIds := [] } := by
  simp only [fetchCore]
  rw [if_pos h]

theorem fetchCore_miss {db : List User} {dir : Nat → Option String}
    {f : List Nat → Bool} {fr : Bool}
    {bd : List (String × Nat) × Cache × List CacheWrite}
    (h : ¬(uncachedOf fr bd).isEmpty = true) :
    fetchCore db dir f fr bd =
      { values :=
          (alUpdate (allInfoOf fr bd)
            (lookupGroups dir f (mkReverseData bd.1)
              (chunk ((uncachedOf fr bd).map Prod.snd) 100)).1).map Prod.snd,
        cache := { bd.2.1 with
          infoStore := alUpdate bd.2.1.infoStore
            (lookupGroups dir f (mkReverseData bd.1)
              (chunk ((uncachedOf fr bd).map Prod.snd) 100)).1 },
        db := markQuestionable
          (lookupGroups dir f (mkReverseData bd.1)
            (chunk ((uncachedOf fr bd).map Prod.snd) 100)).2.1
          (markSeen
            (lookupGroups dir f (mkReverseData bd.1)
              (chunk ((uncachedOf fr bd).map Prod.snd) 100)).2.2.1 db),
        writes := bd.2.2 ++
          [CacheWrite.setManyInfo
            (lookupGroups dir f (mkReverseData bd.1)
              (chunk ((uncachedOf fr bd).map Prod.snd) 100)).1],
        apiCalls :=
          (lookupGroups dir f (mkReverseData bd.1)
            (chunk ((uncachedOf fr bd).map Prod.snd) 100)).2.2.2,
        hits := allInfoOf fr bd,
        fetched :=
          (lookupGroups dir f (mkReverseData bd.1)
            (chunk ((uncachedOf fr bd).map Prod.snd) 100)).1,
        questionable :=
          (lookupGroups dir f (mkReverseData bd.1)
            (chunk ((uncachedOf fr bd).map Prod.snd) 100)).2.1,
        missKeys := (uncachedOf fr bd).map Prod.fst,
        missIds := (uncachedOf fr bd).map Prod.snd } := by
  simp only [fetchCore]
  rw [if_neg h]

theorem fetchCore_apiCalls (db : List User) (dir : Nat → Option String)
    (f : List Nat → Bool) (fr : Bool)
    (bd : List (String × Nat) × Cache × List CacheWrite) :
    (fetchCore db dir f fr bd).apiCalls =
      chunk (fetchCore db dir f fr bd).missIds 100 := by
  by_cases h : (uncachedOf fr bd).isEmpty = true
  · rw [fetchCore_hit h]
    rfl
  · rw [fetchCore_miss h]
    exact lookupGroups_calls ..

/-! ### Helper lemmas for the claims -/

theorem uncachedOf_false_empty {c : Cache} {users : List User}
    (h : ∀ k ∈ alKeys (buildData c users).1, alHasKey k c.infoStore = true) :
    (uncachedOf false (buildData c users)).isEmpty = true := by
  have hnil : uncachedOf false (buildData c users) = [] := by
    rw [uncachedOf, List.filter_eq_nil_iff]
    intro p hp
    have hk : p.1 ∈ alKeys (buildData c users).1 :=
      List.mem_map_of_mem Prod.fst hp
    have hget : alGet p.1 (allInfoOf false (buildData c users)) =
        alGet p.1 c.infoStore := by
      rw [allInfoOf, if_pos (by simp), alGet_cacheGetMany,
        if_pos (by exact hk), buildData_infoStore]
    have hsome := h p.1 hk
    rw [alHasKey] at hsome
    simp [alHasKey, hget, hsome]
  rw [hnil]
  rfl

theorem mkU_social_auth (i : Nat) :
    (mkU i).social_auth = [SocialAuth.mk "twitter" i] := rfl

theorem mkU_key_range_none (e : String) (n : Nat) :
    alGet (get_user_cache_key (mkU n) e)
      ((List.range n).map (fun i => (get_user_cache_key (mkU i) e, i))) =
      none := by
  rw [alGet_eq_none_iff, alKeys]
  simp only [List.map_map, List.mem_map, List.mem_range, Function.comp]
  rintro ⟨i, hi, hk⟩
  have hpk := get_user_cache_key_inj hk
  simp [mkU] at hpk
  omega

theorem buildData_mkU_range (n : Nat) :
    buildData emptyCache ((List.range n).map mkU) =
      ((List.range n).map (fun i => (get_user_cache_key (mkU i) "info", i)),
       { infoStore := [],
         sidStore := (List.range n).map
           (fun i => (get_user_cache_key (mkU i) "social-id", i)) },
       (List.range n).map (fun i =>
         CacheWrite.setSid (get_user_cache_key (mkU i) "social-id") i 60)) := by
  induction n with
  | zero => rfl
  | succ n ih =>
    have hsid := mkU_key_range_none "social-id" n
    have hinfo := mkU_key_range_none "info" n
    rw [List.range_succ]
    simp only [List.map_append, List.map_cons, List.map_nil]
    rw [buildData] at ih ⊢
    rw [List.foldl_append, ih]
    simp only [List.foldl_cons, List.foldl_nil]
    rw [buildStep]
    have hgui : get_user_id
        { infoStore := [],
          sidStore := (List.range n).map
            (fun i => (get_user_cache_key (mkU i) "social-id", i)) } (mkU n) =
        Except.ok (n,
          ({ infoStore := [],
             sidStore := (List.range n).map
               (fun i => (get_user_cache_key (mkU i) "social-id", i)) ++
               [(get_user_cache_key (mkU n) "social-id", n)] } : Cache),
          [CacheWrite.setSid (get_user_cache_key (mkU n) "social-id") n 60]) := by
      rw [get_user_id]
      simp only [hsid, mkU_social_auth, if_true]
      rw [alSet_not_mem _ hsid]
    rw [hgui]
    simp only []
    rw [alSet_not_mem _ hinfo]

theorem mem_map_snd {κ α : Type} (l : List (κ × α)) (v : α) :
    v ∈ l.map Prod.snd ↔ ∃ k, (k, v) ∈ l := by
  constructor
  · intro h
    obtain ⟨⟨k, v'⟩, hm, hv⟩ := List.mem_map.mp h
    subst hv
    exact ⟨k, hm⟩
  · rintro ⟨k, hm⟩
    exact List.mem_map.mpr ⟨(k, v), hm, rfl⟩

theorem mem_alUpdate_iff {κ α : Type} [DecidableEq κ]
    {l m : List (κ × α)} (hl : (alKeys l).Nodup) (hm : (alKeys m).Nodup)
    (k : κ) (v : α) :
    (k, v) ∈ alUpdate l m ↔
      (k, v) ∈ m ∨ ((k, v) ∈ l ∧ alHasKey k m = false) := by
  constructor
  · intro h
    have hget := mem_alGet h (alKeys_alUpdate_nodup m hl)
    rw [alGet_alUpdate l m k hm] at hget
    cases hgm : alGet k m with
    | some v' =>
      rw [hgm] at hget
      simp only [Option.some.injEq] at hget
      subst hget
      exact Or.inl (alGet_mem hgm)
    | none =>
      rw [hgm] at hget
      exact Or.inr ⟨alGet_mem hget, by simp [alHasKey, hgm]⟩
  · intro h
    apply alGet_mem (l := alUpdate l m)
    rw [alGet_alUpdate l m k hm]
    rcases h with h | ⟨h, hk⟩
    · rw [mem_alGet h hm]
    · have : alGet k m = none := by
        cases hgm : alGet k m with
        | none => rfl
        | some v' => simp [alHasKey, hgm] at hk
      rw [this]
      exact mem_alGet h hl

theorem alKeys_cacheGetMany (c : Cache) (keys : List String) :
    alKeys (cacheGetMany c keys) =
      keys.filter (fun k => alHasKey k c.infoStore) := by
  induction keys with
  | nil => rfl
  | cons k keys ih =>
    rw [cacheGetMany, List.filterMap_cons, List.filter_cons]
    cases h : alGet k c.infoStore with
    | none =>
      have hk : alHasKey k c.infoStore = false := by simp [alHasKey, h]
      rw [hk]
      simp only [Option.map_none']
      rw [← cacheGetMany, ih]
      simp
    | some v =>
      have hk : alHasKey k c.infoStore = true := by simp [alHasKey, h]
      rw [hk]
      simp only [Option.map_some']
      rw [alKeys, List.map_cons, ← alKeys, ← cacheGetMany, ih]
      simp

theorem allInfoOf_keys_nodup (fr : Bool) (c : Cache) (users : List User) :
    (alKeys (allInfoOf fr (buildData c users))).Nodup := by
  rw [allInfoOf]
  split
  · rw [alKeys_cacheGetMany]
    exact (buildData_keys_nodup c users).filter _
  · simp [alKeys]

theorem buildStep_ok {acc : List (String × Nat) × Cache × List CacheWrite}
    {u : User} {i : Nat} {c' : Cache} {ws : List CacheWrite}
    (h : get_user_id acc.2.1 u = .ok (i, c', ws)) :
    buildStep acc u =
      (alSet (get_user_cache_key u "info") i acc.1, c', acc.2.2 ++ ws) := by
  rw [buildStep, h]

theorem buildStep_error {acc : List (String × Nat) × Cache × List CacheWrite}
    {u : User} {e : String} (h : get_user_id acc.2.1 u = .error e) :
    buildStep acc u = acc := by
  rw [buildStep, h]

theorem get_user_cache_key_congr {u u' : User} (e : String)
    (h : u.pk = u'.pk) : get_user_cache_key u e = get_user_cache_key u' e := by
  rw [get_user_cache_key, get_user_cache_key, h]

theorem get_user_id_error_of_notConnected {c : Cache} {u : User}
    (hsid : alGet (get_user_cache_key u "social-id") c.sidStore = none)
    (hnc : notConnected u = true) : ∃ e, get_user_id c u = .error e := by
  rw [get_user_id]
  simp only [hsid]
  rw [notConnected] at hnc
  cases hsa : u.social_auth with
  | nil =>
    simp only [hsa]
    exact ⟨_, rfl⟩
  | cons sa tl =>
    rw [hsa] at hnc
    simp only [hsa]
    rw [if_neg (by simpa using hnc)]
    exact ⟨_, rfl⟩

/-! ### Claims -/

/-- C2: a `get_users_info` call with `force_refresh = true` in which more
than 6000 users got a derived cache key behaves exactly as if
`force_refresh` were false: the cache is consulted and only misses are
fetched. -/
theorem force_refresh_capped (db : List User) (c : Cache)
    (dir : Nat → Option String) (f : List Nat → Bool) (users : List User)
    (h : 6000 < (buildData c users).1.length) :
    get_users_info db c dir f users true =
      get_users_info db c dir f users false := by
  rw [get_users_info, get_users_info]
  have h1 : (!true || decide ((buildData c users).1.length > 6000)) = true := by
    simp [h]
  have h2 : (!false || decide ((buildData c users).1.length > 6000)) = true := by
    simp
  have hall : allInfoOf true (buildData c users) =
      allInfoOf false (buildData c users) := by
    rw [allInfoOf, allInfoOf, if_pos h1, if_pos h2]
  have hunc : uncachedOf true (buildData c users) =
      uncachedOf false (buildData c users) := by
    rw [uncachedOf, uncachedOf, hall]
  simp only [fetchCore, hall, hunc]

/-- Witness for C2: with 6001 linked users and an empty cache, the derived
dict has 6001 keys and the forced refresh falls back to the unforced path. -/
theorem force_refresh_capped_witness :
    6000 < (buildData emptyCache c2Users).1.length ∧
      get_users_info [] emptyCache dirAll noFail c2Users true =
        get_users_info [] emptyCache dirAll noFail c2Users false := by
  have hlen : (buildData emptyCache c2Users).1.length = 6001 := by
    rw [c2Users, buildData_mkU_range]
    simp
  exact ⟨by rw [hlen]; omega,
    force_refresh_capped [] emptyCache dirAll noFail c2Users
      (by rw [hlen]; omega)⟩

/-- C3: when `force_refresh` is false and every derived cache key is a cache
hit, no remote lookup call is issued. -/
theorem all_cached_no_remote_call (db : List User) (c : Cache)
    (dir : Nat → Option String) (f : List Nat → Bool) (users : List User)
    (h : ∀ k ∈ alKeys (buildData c users).1, alHasKey k c.infoStore = true) :
    (get_users_info db c dir f users false).apiCalls = [] := by
  rw [get_users_info, fetchCore_hit (uncachedOf_false_empty h)]

/-- Witness for C3: one linked user whose info key is cached; no lookup
happens. -/
theorem all_cached_no_remote_call_witness :
    (∀ k ∈ alKeys (buildData cacheOne [mkU 1]).1,
        alHasKey k cacheOne.infoStore = true) ∧
      (get_users_info [] cacheOne dirAll noFail [mkU 1] false).apiCalls = [] :=
  ⟨by decide, all_cached_no_remote_call [] cacheOne dirAll noFail [mkU 1]
    (by decide)⟩

/-- C4: every 100-id group gets its lookup call issued, and when the call
for a group raises `TwitterHTTPError` the group is degraded to an empty
response, so every member of that group becomes questionable, while the
remaining groups are still processed and the call returns normally. -/
theorem failed_group_degraded (db : List User) (c : Cache)
    (dir : Nat → Option String) (f : List Nat → Bool) (users : List User)
    (fr : Bool) :
    (get_users_info db c dir f users fr).apiCalls =
        chunk (get_users_info db c dir f users fr).missIds 100 ∧
      ∀ g ∈ (get_users_info db c dir f users fr).apiCalls, f g = true →
        ∀ u ∈ g, u ∈ (get_users_info db c dir f users fr).questionable := by
  refine ⟨by rw [get_users_info]; exact fetchCore_apiCalls .., ?_⟩
  intro g hg hf u hu
  rw [get_users_info] at hg ⊢
  by_cases h : (uncachedOf fr (buildData c users)).isEmpty = true
  · rw [fetchCore_hit h] at hg
    simp at hg
  · rw [fetchCore_miss h] at hg ⊢
    rw [lookupGroups_calls] at hg
    rw [lookupGroups]
    exact foldl_lookupStep_fail_questionable dir f
      (mkReverseData (buildData c users).1) _ _ g hg hf u hu

/-- Witness for C4: a single uncached user whose lookup call fails; its id
is questionable and the single group was still issued. -/
theorem failed_group_degraded_witness :
    (get_users_info [] emptyCache dirAll failAll [mkU 5] false).apiCalls =
        chunk (get_users_info [] emptyCache dirAll failAll [mkU 5]
          false).missIds 100 ∧
      [5] ∈ (get_users_info [] emptyCache dirAll failAll [mkU 5]
        false).apiCalls ∧
      5 ∈ (get_users_info [] emptyCache dirAll failAll [mkU 5]
        false).questionable :=
  ⟨(failed_group_degraded [] emptyCache dirAll failAll [mkU 5] false).1,
   by decide,
   (failed_group_degraded [] emptyCache dirAll failAll [mkU 5] false).2
     [5] (by decide) rfl 5 (by decide)⟩

/-- C5: every remote lookup call is issued for a group of at most 100 user
ids. -/
theorem lookup_group_size_le_100 (db : List User) (c : Cache)
    (dir : Nat → Option String) (f : List Nat → Bool) (users : List User)
    (fr : Bool) :
    ∀ g ∈ (get_users_info db c dir f users fr).apiCalls, g.length ≤ 100 := by
  intro g hg
  rw [get_users_info, fetchCore_apiCalls] at hg
  exact chunk_length_le _ 99 g hg

/-- Witness for C5: one uncached id yields the single call `[[7]]`, of
length at most 100. -/
theorem lookup_group_size_le_100_witness :
    [7] ∈ (get_users_info [] emptyCache dirAll noFail [mkU 7]
        false).apiCalls ∧
      ([7] : List Nat).length ≤ 100 :=
  ⟨by decide,
   lookup_group_size_le_100 [] emptyCache dirAll noFail [mkU 7] false [7]
     (by decide)⟩

/-- C10 as stated is false: even when every derived info key is cached, the
call still performs cache writes — `get_user_id` memoizes the social id with
`cache.set(cache_key, social_id, 60)` (services.py:271) while deriving ids. -/
theorem all_cached_still_writes_cex :
    (∀ k ∈ alKeys (buildData cacheOne [mkU 1]).1,
        alHasKey k cacheOne.infoStore = true) ∧
      (get_users_info [] cacheOne dirAll noFail [mkU 1] false).writes ≠ [] :=
  ⟨by decide, by decide⟩

/-- C10 (amended): when `force_refresh` is false and every derived cache key
is a cache hit, the whole fetch-and-reconcile block is skipped: the user
table and the profile-info cache are left unchanged, and the only cache
writes are the 60-second social-id memoizations made while deriving ids. -/
theorem all_cached_frame (db : List User) (c : Cache)
    (dir : Nat → Option String) (f : List Nat → Bool) (users : List User)
    (h : ∀ k ∈ alKeys (buildData c users).1, alHasKey k c.infoStore = true) :
    (get_users_info db c dir f users false).db = db ∧
      (get_users_info db c dir f users false).cache.infoStore = c.infoStore ∧
      ∀ w ∈ (get_users_info db c dir f users false).writes,
        ∃ k v, w = CacheWrite.setSid k v 60 := by
  rw [get_users_info, fetchCore_hit (uncachedOf_false_empty h)]
  exact ⟨rfl, buildData_infoStore c users, buildData_writes c users⟩

/-- Witness for the amended C10. -/
theorem all_cached_frame_witness :
    (∀ k ∈ alKeys (buildData cacheOne [mkU 1]).1,
        alHasKey k cacheOne.infoStore = true) ∧
      ((get_users_info [] cacheOne dirAll noFail [mkU 1] false).db = [] ∧
        (get_users_info [] cacheOne dirAll noFail [mkU 1]
          false).cache.infoStore = cacheOne.infoStore ∧
        ∀ w ∈ (get_users_info [] cacheOne dirAll noFail [mkU 1] false).writes,
          ∃ k v, w = CacheWrite.setSid k v 60) :=
  ⟨by decide, all_cached_frame [] cacheOne dirAll noFail [mkU 1] (by decide)⟩

/-- C7 as stated is false: requesting `[u7a, u7b]` — both linked to uid 5,
with `u7b`'s key `user-2:info` a cache hit and `u7a`'s key `user-1:info` a
miss — makes `reverse_data[5] = 'user-2:info'`, the HIT key (both in this
embedding's dict order and in CPython 2.7's hash-order iteration, where
`user-1:info` occupies slot 0 and `user-2:info` slot 1).  The profile
fetched for the miss is therefore stored under the hit key, overwrites the
cached hit in `all_info.update(new_info)`, and the hit entry `old7` is
missing from the returned collection. -/
theorem values_union_cex :
    (∃ k, (k, old7) ∈
        (get_users_info [] cache7 dirNew noFail [u7a, u7b] false).hits) ∧
      old7 ∉ (get_users_info [] cache7 dirNew noFail [u7a, u7b] false).values :=
  ⟨⟨get_user_cache_key u7b "info", by decide⟩, by decide⟩

/-- C7 (amended): the returned collection consists of the newly fetched
entries together with those cache hits whose key no newly fetched entry
replaced, and nothing else (a hit can be replaced only when distinct
requested users share a remote id). -/
theorem values_union (db : List User) (c : Cache)
    (dir : Nat → Option String) (f : List Nat → Bool) (users : List User)
    (fr : Bool) (v : UserInfo) :
    v ∈ (get_users_info db c dir f users fr).values ↔
      ((∃ k, (k, v) ∈ (get_users_info db c dir f users fr).fetched) ∨
        ∃ k, (k, v) ∈ (get_users_info db c dir f users fr).hits ∧
          alHasKey k (get_users_info db c dir f users fr).fetched = false) := by
  rw [get_users_info]
  by_cases h : (uncachedOf fr (buildData c users)).isEmpty = true
  · rw [fetchCore_hit h]
    simp only [mem_map_snd]
    constructor
    · rintro ⟨k, hk⟩
      exact Or.inr ⟨k, hk, rfl⟩
    · rintro (⟨k, hk⟩ | ⟨k, hk, _⟩)
      · simp at hk
      · exact ⟨k, hk⟩
  · rw [fetchCore_miss h]
    have hl := allInfoOf_keys_nodup fr c users
    have hm := lookupGroups_nodup dir f (mkReverseData (buildData c users).1)
      (chunk ((uncachedOf fr (buildData c users)).map Prod.snd) 100)
    simp only [mem_map_snd]
    constructor
    · rintro ⟨k, hk⟩
      rcases (mem_alUpdate_iff hl hm k v).mp hk with h' | ⟨h', hk'⟩
      · exact Or.inl ⟨k, h'⟩
      · exact Or.inr ⟨k, h', hk'⟩
    · rintro (⟨k, hk⟩ | ⟨k, hk, hk'⟩)
      · exact ⟨k, (mem_alUpdate_iff hl hm k v).mpr (Or.inl hk)⟩
      · exact ⟨k, (mem_alUpdate_iff hl hm k v).mpr (Or.inr ⟨hk, hk'⟩)⟩

/-- C9: whenever the fetch block runs, all newly fetched profile entries are
written to the cache in a single batched `set_many` (and no other batched
write ever happens); each entry sits under the derived cache key of a
requested user whose remote id is the profile's id, and after the call each
entry is present in the cache under that key. -/
theorem fetched_written_once (db : List User) (c : Cache)
    (dir : Nat → Option String) (f : List Nat → Bool) (users : List User)
    (fr : Bool) :
    ((get_users_info db c dir f users fr).writes.filterMap setManyEntries =
        if (get_users_info db c dir f users fr).missKeys.isEmpty then []
        else [(get_users_info db c dir f users fr).fetched]) ∧
      ∀ k v, (k, v) ∈ (get_users_info db c dir f users fr).fetched →
        (k, v.id) ∈ (buildData c users).1 ∧
        alGet k (get_users_info db c dir f users fr).cache.infoStore =
          some v := by
  have hsidw : (buildData c users).2.2.filterMap setManyEntries = [] := by
    rw [List.filterMap_eq_nil_iff]
    intro w hw
    obtain ⟨k, v, rfl⟩ := buildData_writes c users w hw
    rfl
  rw [get_users_info]
  by_cases h : (uncachedOf fr (buildData c users)).isEmpty = true
  · rw [fetchCore_hit h]
    refine ⟨by simpa using hsidw, ?_⟩
    intro k v hv
    simp at hv
  · rw [fetchCore_miss h]
    have hm := lookupGroups_nodup dir f (mkReverseData (buildData c users).1)
      (chunk ((uncachedOf fr (buildData c users)).map Prod.snd) 100)
    constructor
    · rw [List.filterMap_append, hsidw]
      have h2 : ((uncachedOf fr (buildData c users)).map Prod.fst).isEmpty =
          false := by
        cases hu : uncachedOf fr (buildData c users) with
        | nil => exact absurd (by rw [hu]; rfl) h
        | cons a l => rfl
      rw [h2]
      simp [setManyEntries]
    · intro k v hv
      constructor
      · exact mkReverseData_mem
          (lookupGroups_good dir f (mkReverseData (buildData c users).1) _
            (k, v) hv)
      · rw [alGet_alUpdate _ _ _ hm, mem_alGet hv hm]

/-- Witness for C9: one uncached linked user; its profile is fetched, batched
into the one `set_many`, and lands in the cache under the derived key. -/
theorem fetched_written_once_witness :
    ((get_users_info [] emptyCache dirAll noFail [mkU 9] false).writes.filterMap
        setManyEntries =
      if (get_users_info [] emptyCache dirAll noFail [mkU 9]
          false).missKeys.isEmpty
      then []
      else [(get_users_info [] emptyCache dirAll noFail [mkU 9]
        false).fetched]) ∧
      (get_user_cache_key (mkU 9) "info", UserInfo.mk 9 "profile") ∈
        (get_users_info [] emptyCache dirAll noFail [mkU 9] false).fetched ∧
      (get_user_cache_key (mkU 9) "info", 9) ∈
        (buildData emptyCache [mkU 9]).1 ∧
      alGet (get_user_cache_key (mkU 9) "info")
          (get_users_info [] emptyCache dirAll noFail [mkU 9]
            false).cache.infoStore =
        some (UserInfo.mk 9 "profile") :=
  ⟨(fetched_written_once [] emptyCache dirAll noFail [mkU 9] false).1,
   by decide,
   ((fetched_written_once [] emptyCache dirAll noFail [mkU 9] false).2
     (get_user_cache_key (mkU 9) "info") (UserInfo.mk 9 "profile")
     (by decide)).1,
   ((fetched_written_once [] emptyCache dirAll noFail [mkU 9] false).2
     (get_user_cache_key (mkU 9) "info") (UserInfo.mk 9 "profile")
     (by decide)).2⟩

theorem chunk_singleton {α : Type} (x : α) (n : Nat) :
    chunk [x] (n + 1) = [[x]] := by
  simp [chunk, chunkFuel]

/-- C6: for a `force_refresh = false` call on exactly two linked users A and
B with distinct primary keys and uncached social ids, where A's derived info
key is cached and B's is not, exactly one remote lookup call is issued and
it contains only B's remote id. -/
theorem two_users_one_miss (db : List User) (c : Cache)
    (dir : Nat → Option String) (f : List Nat → Bool)
    (pa pb ua ub : Nat) (na nb : String) (fa fb : Bool)
    (hpk : pa ≠ pb)
    (hsa : alGet (get_user_cache_key
        (User.mk pa na [SocialAuth.mk "twitter" ua] fa) "social-id")
        c.sidStore = none)
    (hsb : alGet (get_user_cache_key
        (User.mk pb nb [SocialAuth.mk "twitter" ub] fb) "social-id")
        c.sidStore = none)
    (hha : alHasKey (get_user_cache_key
        (User.mk pa na [SocialAuth.mk "twitter" ua] fa) "info")
        c.infoStore = true)
    (hmb : alGet (get_user_cache_key
        (User.mk pb nb [SocialAuth.mk "twitter" ub] fb) "info")
        c.infoStore = none) :
    (get_users_info db c dir f
      [User.mk pa na [SocialAuth.mk "twitter" ua] fa,
       User.mk pb nb [SocialAuth.mk "twitter" ub] fb] false).apiCalls =
      [[ub]] := by
  have hkeyBA : ∀ e, get_user_cache_key
      (User.mk pb nb [SocialAuth.mk "twitter" ub] fb) e ≠
      get_user_cache_key (User.mk pa na [SocialAuth.mk "twitter" ua] fa) e :=
    fun e => get_user_cache_key_ne (by simpa using Ne.symm hpk)
  have hgA : get_user_id c (User.mk pa na [SocialAuth.mk "twitter" ua] fa) =
      Except.ok (ua,
        { c with sidStore := (alSet (get_user_cache_key
            (User.mk pa na [SocialAuth.mk "twitter" ua] fa) "social-id") ua
            c.sidStore) },
        [CacheWrite.setSid (get_user_cache_key
          (User.mk pa na [SocialAuth.mk "twitter" ua] fa) "social-id")
          ua 60]) := by
    simp only [get_user_id]
    rw [hsa]
    rfl
  have hgB : get_user_id
      { c with sidStore := (alSet (get_user_cache_key
          (User.mk pa na [SocialAuth.mk "twitter" ua] fa) "social-id") ua
          c.sidStore) }
      (User.mk pb nb [SocialAuth.mk "twitter" ub] fb) =
      Except.ok (ub,
        { c with sidStore := (alSet (get_user_cache_key
            (User.mk pb nb [SocialAuth.mk "twitter" ub] fb) "social-id") ub
            (alSet (get_user_cache_key
              (User.mk pa na [SocialAuth.mk "twitter" ua] fa) "social-id") ua
              c.sidStore)) },
        [CacheWrite.setSid (get_user_cache_key
          (User.mk pb nb [SocialAuth.mk "twitter" ub] fb) "social-id")
          ub 60]) := by
    simp only [get_user_id]
    rw [alGet_alSet_ne _ _ (hkeyBA "social-id"), hsb]
    rfl
  have hdata : (buildData c
      [User.mk pa na [SocialAuth.mk "twitter" ua] fa,
       User.mk pb nb [SocialAuth.mk "twitter" ub] fb]).1 =
      [(get_user_cache_key (User.mk pa na [SocialAuth.mk "twitter" ua] fa)
          "info", ua),
       (get_user_cache_key (User.mk pb nb [SocialAuth.mk "twitter" ub] fb)
          "info", ub)] := by
    have hstep1 : buildStep ([], c, [])
        (User.mk pa na [SocialAuth.mk "twitter" ua] fa) =
        ([(get_user_cache_key (User.mk pa na [SocialAuth.mk "twitter" ua] fa)
            "info", ua)],
         { c with sidStore := (alSet (get_user_cache_key
             (User.mk pa na [SocialAuth.mk "twitter" ua] fa) "social-id") ua
             c.sidStore) },
         [CacheWrite.setSid (get_user_cache_key
           (User.mk pa na [SocialAuth.mk "twitter" ua] fa) "social-id")
           ua 60]) := by
      rw [buildStep_ok hgA]
      rfl
    rw [buildData]
    simp only [List.foldl_cons, List.foldl_nil]
    rw [hstep1, buildStep_ok hgB]
    simp [alSet, (hkeyBA "info").symm]
  have hAhit : alHasKey (get_user_cache_key
      (User.mk pa na [SocialAuth.mk "twitter" ua] fa) "info")
      (allInfoOf false (buildData c
        [User.mk pa na [SocialAuth.mk "twitter" ua] fa,
         User.mk pb nb [SocialAuth.mk "twitter" ub] fb])) = true := by
    rw [alHasKey, allInfoOf, hdata, if_pos (by simp), alGet_cacheGetMany,
      if_pos (by simp), buildData_infoStore]
    exact hha
  have hBmiss : alHasKey (get_user_cache_key
      (User.mk pb nb [SocialAuth.mk "twitter" ub] fb) "info")
      (allInfoOf false (buildData c
        [User.mk pa na [SocialAuth.mk "twitter" ua] fa,
         User.mk pb nb [SocialAuth.mk "twitter" ub] fb])) = false := by
    rw [alHasKey, allInfoOf, hdata, if_pos (by simp), alGet_cacheGetMany,
      if_pos (by simp), buildData_infoStore, hmb]
    rfl
  have hunc : uncachedOf false (buildData c
      [User.mk pa na [SocialAuth.mk "twitter" ua] fa,
       User.mk pb nb [SocialAuth.mk "twitter" ub] fb]) =
      [(get_user_cache_key (User.mk pb nb [SocialAuth.mk "twitter" ub] fb)
        "info", ub)] := by
    rw [uncachedOf, hdata]
    simp [List.filter, hAhit, hBmiss]
  have hne : ¬(uncachedOf false (buildData c
      [User.mk pa na [SocialAuth.mk "twitter" ua] fa,
       User.mk pb nb [SocialAuth.mk "twitter" ub] fb])).isEmpty = true := by
    rw [hunc]
    simp
  rw [get_users_info, fetchCore_miss hne, lookupGroups_calls, hunc]
  exact chunk_singleton ub 99

/-- Witness for C6: `mkU 1` cached, `mkU 2` not; the single lookup call is
`[[2]]`. -/
theorem two_users_one_miss_witness :
    (1 : Nat) ≠ 2 ∧
      alHasKey (get_user_cache_key (User.mk 1 "" [SocialAuth.mk "twitter" 1]
        false) "info") cacheOne.infoStore = true ∧
      alGet (get_user_cache_key (User.mk 2 "" [SocialAuth.mk "twitter" 2]
        false) "info") cacheOne.infoStore = none ∧
      (get_users_info [] cacheOne dirAll noFail
        [User.mk 1 "" [SocialAuth.mk "twitter" 1] false,
         User.mk 2 "" [SocialAuth.mk "twitter" 2] false] false).apiCalls =
        [[2]] :=
  ⟨by decide, by decide, by decide,
   two_users_one_miss [] cacheOne dirAll noFail 1 2 1 2 "" "" false false
     (by decide) (by decide) (by decide) (by decide) (by decide)⟩

theorem foldl_buildStep_skip (u : User) (users : List User) :
    ∀ acc : List (String × Nat) × Cache × List CacheWrite,
      (∀ u' ∈ users, u'.pk = u.pk → notConnected u' = true) →
      alGet (get_user_cache_key u "social-id") acc.2.1.sidStore = none →
      users.foldl buildStep acc =
        (users.filter (fun x => !(x == u))).foldl buildStep acc := by
  induction users with
  | nil => intro acc _ _; rfl
  | cons x users ih =>
    intro acc hnc hsid
    have hnc' : ∀ u' ∈ users, u'.pk = u.pk → notConnected u' = true :=
      fun u' h hp => hnc u' (List.mem_cons_of_mem _ h) hp
    by_cases hx : x = u
    · have hncx : notConnected x = true :=
        hnc x (List.mem_cons_self ..) (by rw [hx])
      have hsx : alGet (get_user_cache_key x "social-id")
          acc.2.1.sidStore = none := by
        rw [get_user_cache_key_congr "social-id" (show x.pk = u.pk by rw [hx])]
        exact hsid
      obtain ⟨e, he⟩ := get_user_id_error_of_notConnected hsx hncx
      rw [List.foldl_cons, buildStep_error he]
      have hfilter : (x :: users).filter (fun y => !(y == u)) =
          users.filter (fun y => !(y == u)) := by
        simp [List.filter_cons, hx]
      rw [hfilter]
      exact ih acc hnc' hsid
    · have hfilter : (x :: users).filter (fun y => !(y == u)) =
          x :: users.filter (fun y => !(y == u)) := by
        simp [List.filter_cons, hx]
      rw [List.foldl_cons, hfilter, List.foldl_cons]
      refine ih (buildStep acc x) hnc' ?_
      cases hg : get_user_id acc.2.1 x with
      | error e =>
        rw [buildStep_error hg]
        exact hsid
      | ok r =>
        obtain ⟨i, c', ws⟩ := r
        by_cases hpk : x.pk = u.pk
        · exfalso
          have hsx : alGet (get_user_cache_key x "social-id")
              acc.2.1.sidStore = none := by
            rw [get_user_cache_key_congr "social-id" hpk]
            exact hsid
          obtain ⟨e, he⟩ := get_user_id_error_of_notConnected hsx
            (hnc x (List.mem_cons_self ..) hpk)
          rw [he] at hg
          exact absurd hg (by simp)
        · rw [buildStep_ok hg]
          show alGet (get_user_cache_key u "social-id") c'.sidStore = none
          rcases get_user_id_sidStore hg with hss | hss
          · rw [hss]
            exact hsid
          · rw [hss, alGet_alSet_ne _ _
              (get_user_cache_key_ne (fun h => hpk h.symm))]
            exact hsid

theorem foldl_buildStep_no_key (u : User) (users : List User) :
    ∀ acc : List (String × Nat) × Cache × List CacheWrite,
      (∀ u' ∈ users, u'.pk = u.pk → notConnected u' = true) →
      alGet (get_user_cache_key u "social-id") acc.2.1.sidStore = none →
      alGet (get_user_cache_key u "info") acc.1 = none →
      alGet (get_user_cache_key u "info") (users.foldl buildStep acc).1 =
        none := by
  induction users with
  | nil => intro acc _ _ h; exact h
  | cons x users ih =>
    intro acc hnc hsid hkey
    have hnc' : ∀ u' ∈ users, u'.pk = u.pk → notConnected u' = true :=
      fun u' h hp => hnc u' (List.mem_cons_of_mem _ h) hp
    rw [List.foldl_cons]
    cases hg : get_user_id acc.2.1 x with
    | error e =>
      rw [buildStep_error hg]
      exact ih acc hnc' hsid hkey
    | ok r =>
      obtain ⟨i, c', ws⟩ := r
      by_cases hpk : x.pk = u.pk
      · exfalso
        have hsx : alGet (get_user_cache_key x "social-id")
            acc.2.1.sidStore = none := by
          rw [get_user_cache_key_congr "social-id" hpk]
          exact hsid
        obtain ⟨e, he⟩ := get_user_id_error_of_notConnected hsx
          (hnc x (List.mem_cons_self ..) hpk)
        rw [he] at hg
        exact absurd hg (by simp)
      · rw [buildStep_ok hg]
        refine ih _ hnc' ?_ ?_
        · show alGet (get_user_cache_key u "social-id") c'.sidStore = none
          rcases get_user_id_sidStore hg with hss | hss
          · rw [hss]
            exact hsid
          · rw [hss, alGet_alSet_ne _ _
              (get_user_cache_key_ne (fun h => hpk h.symm))]
            exact hsid
        · show alGet (get_user_cache_key u "info")
            (alSet (get_user_cache_key x "info") i acc.1) = none
          rw [alGet_alSet_ne _ _
            (get_user_cache_key_ne (fun h => hpk h.symm))]
          exact hkey

/-- C8: a user for whom `get_user_id` raises the not-connected
`SocialMediaException` (no cached social id and no usable linked account —
likewise for anyone sharing its primary key) is skipped: the call behaves
exactly as if that user had not been requested, and the user's derived info
key never enters the key/id dict, so it contributes no entry to the returned
collection. -/
theorem not_connected_skipped (db : List User) (c : Cache)
    (dir : Nat → Option String) (f : List Nat → Bool) (users : List User)
    (fr : Bool) (u : User)
    (hnc : ∀ u' ∈ users, u'.pk = u.pk → notConnected u' = true)
    (hsid : alGet (get_user_cache_key u "social-id") c.sidStore = none) :
    get_users_info db c dir f users fr =
        get_users_info db c dir f (users.filter (fun x => !(x == u))) fr ∧
      alGet (get_user_cache_key u "info") (buildData c users).1 = none := by
  constructor
  · rw [get_users_info, get_users_info]
    have hbd : buildData c users =
        buildData c (users.filter (fun x => !(x == u))) :=
      foldl_buildStep_skip u users ([], c, []) hnc hsid
    rw [hbd]
  · exact foldl_buildStep_no_key u users ([], c, []) hnc hsid rfl

/-- Witness for C8: a user with no linked account among two requested users
is skipped and the call equals the call on the other user alone. -/
theorem not_connected_skipped_witness :
    (∀ u' ∈ [u8bad, mkU 4], u'.pk = u8bad.pk → notConnected u' = true) ∧
      alGet (get_user_cache_key u8bad "social-id") emptyCache.sidStore =
        none ∧
      (get_users_info [] emptyCache dirAll noFail [u8bad, mkU 4] false =
          get_users_info [] emptyCache dirAll noFail
            (([u8bad, mkU 4]).filter (fun x => !(x == u8bad))) false ∧
        alGet (get_user_cache_key u8bad "info")
          (buildData emptyCache [u8bad, mkU 4]).1 = none) :=
  ⟨by decide, rfl,
   not_connected_skipped [] emptyCache dirAll noFail [u8bad, mkU 4] false
     u8bad (by decide) rfl⟩

set_option maxRecDepth 100000
set_option maxHeartbeats 4000000

/-- C1 names a real bug: services.py:154 rebinds `seen_ids` on every loop
iteration but services.py:186 reads it after the loop, so only the LAST
100-id group's response clears `sm_not_found`.  Here 101 users are all cache
misses, the remote API returns a profile for every id, and no group errors:
uid 0 is found (its profile is among the fetched entries) and nothing is
questionable, yet the table row for uid 0 keeps `sm_not_found = true`
because uid 0 sat in the first group of 100, not in the last group. -/
theorem found_user_flag_not_cleared :
    ((get_users_info [c1FoundUser] emptyCache dirAll noFail c1Users
        false).fetched.map (fun p => p.2.id)).contains 0 = true ∧
      (get_users_info [c1FoundUser] emptyCache dirAll noFail c1Users
        false).db = [c1FoundUser] := by
  decide

end Newark
